import Mathlib

/-!
Verification of the Verilator co-simulation testbench (`sim.cpp`) of the
mycpu repository: word memory with byte-lane write strobes, the MMIO bus
decoder, UART and timer register files, the VGA frame compositor, the
simulation loop's halt mechanism, the signature extractor and the progress
divisor.  All machine integers are modelled as `Nat` with explicit masking
by `2^32` where the C++ `uint32_t` arithmetic demands it.
-/

namespace MyCpu

/-- The flat word-addressed backing store (`class Memory`): a vector of
32-bit words, fixed capacity. -/
structure Memory where
  mem : List Nat
deriving DecidableEq

/-- `Memory::read`: divide the byte address by 4, return 0 silently when the
word index is out of range, otherwise the stored word. -/
def Memory.read (m : Memory) (address : Nat) : Nat :=
  let a := address / 4
  if a ≥ m.mem.length then 0 else m.mem.getD a 0

/-- `Memory::readInst`: like `read` but an out-of-range access additionally
emits a diagnostic (modelled as the `Bool` component: `true` iff the
`printf` diagnostic fired); the run continues with value 0. -/
def Memory.readInst (m : Memory) (address : Nat) : Nat × Bool :=
  let a := address / 4
  if a ≥ m.mem.length then (0, true) else (m.mem.getD a 0, false)

/-- The 32-bit write mask accumulated from the four byte-lane strobes,
exactly as `Memory::write` builds `write_mask`. -/
def writeMask (s0 s1 s2 s3 : Bool) : Nat :=
  let m0 : Nat := 0
  let m1 := if s0 then m0 ||| 0x000000FF else m0
  let m2 := if s1 then m1 ||| 0x0000FF00 else m1
  let m3 := if s2 then m2 ||| 0x00FF0000 else m2
  if s3 then m3 ||| 0xFF000000 else m3

/-- `Memory::write`: divide the byte address by 4; out-of-range writes are
silently dropped; otherwise merge `value` into the stored word under the
lane mask (`~write_mask` of the C++ `uint32_t` is `0xFFFFFFFF ^^^ mask`). -/
def Memory.write (m : Memory) (address value : Nat) (s0 s1 s2 s3 : Bool) :
    Memory :=
  let a := address / 4
  let mask := writeMask s0 s1 s2 s3
  if a ≥ m.mem.length then m
  else ⟨m.mem.set a ((m.mem.getD a 0 &&& (0xFFFFFFFF ^^^ mask)) |||
    (value &&& mask))⟩

/-- Byte lane `i` of a 32-bit word: bits `8*i .. 8*i+7`. -/
def byteLane (i w : Nat) : Nat := (w >>> (8 * i)) &&& 0xFF

/-- The strobe bit governing byte lane `i` (`write_strobe[i]`). -/
def strobeAt (s0 s1 s2 s3 : Bool) : Nat → Bool
  | 0 => s0
  | 1 => s1
  | 2 => s2
  | 3 => s3
  | _ => false

def DEVICE_SELECT_BITS : Nat := 3

def DEVICE_SHIFT : Nat := 32 - DEVICE_SELECT_BITS

def DEVICE_MASK : Nat := (1 <<< DEVICE_SHIFT) - 1

def UART_BASE : Nat := 0x40000000

def TIMER_BASE : Nat := 0x80000000

def VGA_BASE : Nat := 0x30000000

/-- `effective_address = (device_select << DEVICE_SHIFT) | low_address`
with `low_address = address & DEVICE_MASK`; the shift is `uint32_t`
arithmetic, hence the explicit reduction modulo `2^32`. -/
def effectiveAddress (sel addr : Nat) : Nat :=
  ((sel <<< DEVICE_SHIFT) % 2 ^ 32) ||| (addr &&& DEVICE_MASK)

/-- `is_uart`: the high nibble of the effective address equals `UART_BASE`. -/
def isUart (ea : Nat) : Bool := ea &&& 0xF0000000 == UART_BASE

/-- `is_timer`: the high nibble equals `TIMER_BASE`. -/
def isTimer (ea : Nat) : Bool := ea &&& 0xF0000000 == TIMER_BASE

/-- `is_vga`: the high nibble equals `VGA_BASE`. -/
def isVga (ea : Nat) : Bool := ea &&& 0xF0000000 == VGA_BASE

/-- The single target a bus transaction is routed to. -/
inductive BusTarget where
  | wordMem
  | uartDev
  | timerDev
  | vgaDev
  | noDevice
deriving DecidableEq

/-- The dispatch chain of `Simulator::run`: selector 0 goes to word memory,
otherwise the first matching device region, otherwise no device. -/
def decode (sel addr : Nat) : BusTarget :=
  let ea := effectiveAddress sel addr
  if sel = 0 then BusTarget.wordMem
  else if isUart ea then BusTarget.uartDev
  else if isTimer ea then BusTarget.timerDev
  else if isVga ea then BusTarget.vgaDev
  else BusTarget.noDevice

/-- `class TimerMMIO`: limit and enable registers, defaults 0 / disabled. -/
structure TimerMMIO where
  limit : Nat := 0
  enabled : Bool := false
deriving DecidableEq

/-- `TimerMMIO::write`: offset 4 stores the limit, offset 8 stores the
boolean-coerced enable flag, other offsets are no-ops. -/
def TimerMMIO.write (t : TimerMMIO) (offset value : Nat) : TimerMMIO :=
  if offset = 0x4 then { t with limit := value }
  else if offset = 0x8 then { t with enabled := value != 0 }
  else t

/-- `TimerMMIO::read`: offset 4 reads the limit, offset 8 reads the enable
flag as 0/1, other offsets read 0. -/
def TimerMMIO.read (t : TimerMMIO) (offset : Nat) : Nat :=
  if offset = 0x4 then t.limit
  else if offset = 0x8 then (if t.enabled then 1 else 0)
  else 0

/-- `class UartMMIO`: baud rate (default 115200), enable flag, last received
byte (never updated by this design) and the transmit log. -/
structure UartMMIO where
  baudrate : Nat := 115200
  enabled : Bool := false
  last_rx : Nat := 0
  tx_log : List Nat := []
deriving DecidableEq

/-- `UartMMIO::write`: offset 4 stores the baud rate, offset 8 the
boolean-coerced enable flag; offset 0x10 appends the low byte to the
transmit log when enabled and drops it when disabled; other offsets are
no-ops. -/
def UartMMIO.write (u : UartMMIO) (offset value : Nat) : UartMMIO :=
  if offset = 0x4 then { u with baudrate := value }
  else if offset = 0x8 then { u with enabled := value != 0 }
  else if offset = 0x10 then
    (if u.enabled then { u with tx_log := u.tx_log ++ [value &&& 0xFF] }
     else u)
  else u

/-- `UartMMIO::read`: offset 4 reads the stored baud rate, offset 0xC reads
the last received byte, every other offset reads 0. -/
def UartMMIO.read (u : UartMMIO) (offset : Nat) : Nat :=
  if offset = 0x4 then u.baudrate
  else if offset = 0xC then u.last_rx
  else 0

/-- The state mutated by the per-tick dispatch: word memory plus the two
peripheral register files. -/
structure BusState where
  mem : Memory
  uart : UartMMIO
  timer : TimerMMIO
deriving DecidableEq

/-- The write half of the per-tick dispatch chain in `Simulator::run`
(entered when `write_enable` is set). -/
def busWrite (st : BusState) (sel addr value : Nat) (s0 s1 s2 s3 : Bool) :
    BusState :=
  let ea := effectiveAddress sel addr
  if sel = 0 then { st with mem := st.mem.write ea value s0 s1 s2 s3 }
  else if isUart ea then
    { st with uart := st.uart.write (ea - UART_BASE) value }
  else if isTimer ea then
    { st with timer := st.timer.write (ea - TIMER_BASE) value }
  else if isVga ea then st
  else st

/-- The read half of the per-tick dispatch chain in `Simulator::run`:
the value latched into `data_memory_read_word`. -/
def busRead (st : BusState) (sel addr : Nat) : Nat :=
  let ea := effectiveAddress sel addr
  if sel = 0 then st.mem.read ea
  else if isUart ea then st.uart.read (ea - UART_BASE)
  else if isTimer ea then st.timer.read (ea - TIMER_BASE)
  else if isVga ea then 0
  else 0

/-- A sequence of UART register writes applied in order. -/
def applyWrites (u : UartMMIO) : List (Nat × Nat) → UartMMIO
  | [] => u
  | (o, v) :: rest => applyWrites (u.write o v) rest

def H_RES : Nat := 640

def V_RES : Nat := 480

/-- `VGADisplay::vga2bit_to_8bit`: the 2-bit to 8-bit channel expansion. -/
def vga2bit_to_8bit (val : Nat) : Nat := val * 85

/-- The display state: the BGRA framebuffer (byte-indexed), the vsync
edge-detector bit (initially `true`) and the number of frames handed to the
display sink (`render` calls). -/
structure VGADisplay where
  framebuffer : Nat → Nat
  prev_vsync : Bool := true
  presented : Nat := 0

/-- `VGADisplay::update_pixel`: when active video is asserted and the
hardware-reported position is inside the fixed resolution, store the three
expanded channels and full opacity at the pixel's four framebuffer bytes. -/
def VGADisplay.update_pixel (d : VGADisplay)
    (rrggbb activevideo x_pos y_pos : Nat) : VGADisplay :=
  if activevideo ≠ 0 ∧ x_pos < H_RES ∧ y_pos < V_RES then
    let idx := (y_pos * H_RES + x_pos) * 4
    { d with framebuffer := fun i =>
        if i = idx then vga2bit_to_8bit (rrggbb &&& 0b11)
        else if i = idx + 1 then vga2bit_to_8bit ((rrggbb >>> 2) &&& 0b11)
        else if i = idx + 2 then vga2bit_to_8bit ((rrggbb >>> 4) &&& 0b11)
        else if i = idx + 3 then 255
        else d.framebuffer i }
  else d

/-- `VGADisplay::check_vsync`: on a falling edge (previous sample high,
current low) hand the frame to the display sink, then store the current
sample as the one bit of edge-detector state. -/
def VGADisplay.check_vsync (d : VGADisplay) (vsync : Bool) : VGADisplay :=
  { d with
    presented := if !vsync && d.prev_vsync then d.presented + 1
      else d.presented,
    prev_vsync := vsync }

/-- The spec's expansion table \x7b0 → 0, 1 → 85, 2 → 170, 3 → 255\x7d. -/
def colorMap : Nat → Nat
  | 0 => 0
  | 1 => 85
  | 2 => 170
  | 3 => 255
  | _ => 0

/-- The number of falling edges in a vsync sample sequence, given the
previous sample. -/
def fallingEdges (prev : Bool) : List Bool → Nat
  | [] => 0
  | v :: rest => (if !v && prev then 1 else 0) + fallingEdges v rest

def HALT_SENTINEL : Nat := 0xBABECAFE

/-- One tick's bus write transaction as produced by the opaque core:
selector, address, data and the four lane strobes. -/
structure BusOp where
  sel : Nat
  addr : Nat
  value : Nat
  s0 : Bool
  s1 : Bool
  s2 : Bool
  s3 : Bool

/-- One simulated tick's dispatch: when the core asserts write-enable
(`some`), the decoded write is applied; otherwise the state is untouched. -/
def tickDispatch (st : BusState) (op : Option BusOp) : BusState :=
  match op with
  | none => st
  | some o => busWrite st o.sel o.addr o.value o.s0 o.s1 o.s2 o.s3

/-- The bus state after the dispatches of ticks `1 .. t` along a trace. -/
def stateAfter (trace : Nat → Option BusOp) (st0 : BusState) : Nat → BusState
  | 0 => st0
  | t + 1 => tickDispatch (stateAfter trace st0 t) (trace (t + 1))

/-- The main loop of `Simulator::run`, with the opaque core abstracted as
the per-tick trace of its bus write transactions: each iteration increments
`main_time`, dispatches, then checks the halt condition (a nonzero
configured halt address observed to contain the sentinel) and breaks; the
tick budget bounds the loop. Core self-completion and display-sink quit
requests are omitted from the model; they can only terminate the loop
earlier. Returns the final `main_time` and state. -/
def simRunAux (haltAddr : Nat) (trace : Nat → Option BusOp) :
    Nat → Nat → BusState → Nat × BusState
  | 0, t, st => (t, st)
  | fuel + 1, t, st =>
    let st2 := tickDispatch st (trace (t + 1))
    if haltAddr ≠ 0 ∧ st2.mem.read haltAddr = HALT_SENTINEL then (t + 1, st2)
    else simRunAux haltAddr trace fuel (t + 1) st2

/-- `Simulator::run` from `main_time = 0` with a tick budget. -/
def simRun (haltAddr budget : Nat) (trace : Nat → Option BusOp)
    (st0 : BusState) : Nat × BusState :=
  simRunAux haltAddr trace budget 0 st0

/-- A trace writing the sentinel to byte address 4 (selector 0) at tick 3
and idle otherwise. -/
def haltCexTrace : Nat → Option BusOp := fun t =>
  if t = 3 then some ⟨0, 4, 0xBABECAFE, true, true, true, true⟩ else none

/-- The addresses visited by the signature dump loop: `begin` inclusive to
`end` exclusive, stepping by 4 bytes. -/
def sigAddrs (b e : Nat) : List Nat :=
  if b < e then b :: sigAddrs (b + 4) e else []
termination_by e - b
decreasing_by omega

/-- A single `%x` digit: `0`-`9` then lowercase `a`-`f`. -/
def hexDigit (d : Nat) : Char :=
  if d < 10 then Char.ofNat (48 + d) else Char.ofNat (87 + d)

/-- `snprintf(data, 9, "%08x", w)` for a 32-bit word: exactly 8 lowercase,
zero-padded hexadecimal digits, most significant nibble first. -/
def toHex8 (w : Nat) : String :=
  String.mk ((List.range 8).map fun k => hexDigit ((w >>> (4 * (7 - k))) &&& 15))

/-- The signature lines: one formatted word per visited address. -/
def signatureLines (mem : Memory) (b e : Nat) : List String :=
  (sigAddrs b e).map fun a => toHex8 (mem.read a)

/-- The signature artifact: every line is followed by a newline
(`signature_file << data << std::endl`). -/
def signatureOutput (mem : Memory) (b e : Nat) : String :=
  String.join ((signatureLines mem b e).map (fun l => l ++ "\n"))

/-- The lowercase hexadecimal alphabet. -/
def lowerHexChars : List Char := "0123456789abcdef".data

/-- `max_sim_time / 100`: the divisor of the per-tick progress check
`main_time % (max_sim_time / 100) == 0` in `Simulator::run`. -/
def progressDivisor (maxSimTime : Nat) : Nat := maxSimTime / 100

/-- The per-tick progress condition as written in the loop; in C++ the
modulo is undefined when the divisor is zero, while here `x % 0 = x`. -/
def progressCheck (mainTime maxSimTime : Nat) : Bool :=
  mainTime % progressDivisor maxSimTime == 0

theorem byteLane_testBit (i w j : Nat) :
    (byteLane i w).testBit j = (decide (j < 8) && w.testBit (8 * i + j)) := by
  unfold byteLane
  have h255 : (0xFF : Nat) = 2 ^ 8 - 1 := by norm_num
  rw [Nat.testBit_and, Nat.testBit_shiftRight, h255,
    Nat.testBit_two_pow_sub_one, Bool.and_comm]

theorem writeMask_testBit (s0 s1 s2 s3 : Bool) (i j : Nat) (hi : i < 4)
    (hj : j < 8) :
    (writeMask s0 s1 s2 s3).testBit (8 * i + j) = strobeAt s0 s1 s2 s3 i := by
  interval_cases i <;> interval_cases j <;>
    (cases s0 <;> cases s1 <;> cases s2 <;> cases s3 <;> decide)

theorem writeMask_lt (s0 s1 s2 s3 : Bool) : writeMask s0 s1 s2 s3 < 2 ^ 32 := by
  cases s0 <;> cases s1 <;> cases s2 <;> cases s3 <;> decide

/-- Bit `k < 32` of the merged word `(old &&& ~mask) ||| (value &&& mask)`
comes from `value` when the mask bit is set and from `old` otherwise. -/
theorem merge_testBit (old value mask k : Nat) (hk : k < 32) :
    ((old &&& (0xFFFFFFFF ^^^ mask)) ||| (value &&& mask)).testBit k =
      (if mask.testBit k then value.testBit k else old.testBit k) := by
  have hF : (0xFFFFFFFF : Nat) = 2 ^ 32 - 1 := by norm_num
  rw [Nat.testBit_or, Nat.testBit_and, Nat.testBit_and, Nat.testBit_xor, hF,
    Nat.testBit_two_pow_sub_one]
  rcases h : mask.testBit k with _ | _ <;> simp [hk]

theorem merge_byteLane (old value : Nat) (s0 s1 s2 s3 : Bool) (i : Nat)
    (hi : i < 4) :
    byteLane i ((old &&& (0xFFFFFFFF ^^^ writeMask s0 s1 s2 s3)) |||
        (value &&& writeMask s0 s1 s2 s3)) =
      if strobeAt s0 s1 s2 s3 i then byteLane i value else byteLane i old := by
  apply Nat.eq_of_testBit_eq
  intro j
  by_cases hj : j < 8
  · have hk : 8 * i + j < 32 := by omega
    rcases hs : strobeAt s0 s1 s2 s3 i with _ | _ <;>
      simp [hs, byteLane_testBit, hj, merge_testBit _ _ _ _ hk,
        writeMask_testBit s0 s1 s2 s3 i j hi hj]
  · rcases hs : strobeAt s0 s1 s2 s3 i with _ | _ <;>
      simp [byteLane_testBit, hj]

theorem set_getElem_eq_self (l : List Nat) (a : Nat) (h : a < l.length) :
    l.set a (l.getD a 0) = l := by
  apply List.ext_getElem?
  intro n
  rw [List.getElem?_set]
  by_cases hn : a = n
  · subst hn
    simp [h, List.getD_eq_getElem?_getD, List.getElem?_eq_getElem h]
  · simp [hn]

/-- C2: for an in-range word address, `write` then `readData` returns a word
whose byte lane `i` is byte `i` of the written value when strobe `i` is set
and the prior stored byte otherwise; a write with all four strobes false
leaves the memory (the whole word vector) unchanged. -/
theorem write_then_read_lanes (m : Memory) (address value : Nat)
    (s0 s1 s2 s3 : Bool) (hin : address / 4 < m.mem.length)
    (hwf : ∀ w ∈ m.mem, w < 2 ^ 32) :
    (∀ i, i < 4 →
      byteLane i ((m.write address value s0 s1 s2 s3).read address) =
        if strobeAt s0 s1 s2 s3 i then byteLane i value
        else byteLane i (m.read address)) ∧
    m.write address value false false false false = m := by
  have hlen : ¬ address / 4 ≥ m.mem.length := by omega
  have hgetD : m.mem.getD (address / 4) 0 = m.mem[address / 4] := by
    simp [List.getD_eq_getElem?_getD, List.getElem?_eq_getElem hin]
  constructor
  · intro i hi
    have hread : (m.write address value s0 s1 s2 s3).read address =
        (m.mem.getD (address / 4) 0 &&&
          (0xFFFFFFFF ^^^ writeMask s0 s1 s2 s3)) |||
          (value &&& writeMask s0 s1 s2 s3) := by
      simp only [Memory.write, Memory.read, hlen, if_false]
      simp [hlen, List.getD_eq_getElem?_getD, List.getElem?_set_self hin]
    rw [hread, merge_byteLane _ _ _ _ _ _ _ hi]
    simp only [Memory.read, hlen, if_false]
  · have hmask : writeMask false false false false = 0 := rfl
    simp only [Memory.write, hmask, hlen, if_false]
    have hF : (0xFFFFFFFF : Nat) = 2 ^ 32 - 1 := by norm_num
    have hold : m.mem.getD (address / 4) 0 &&& 0xFFFFFFFF =
        m.mem.getD (address / 4) 0 := by
      rw [hF, Nat.and_pow_two_sub_one_eq_mod, Nat.mod_eq_of_lt]
      rw [hgetD]
      exact hwf _ (List.getElem_mem hin)
    simp only [Nat.xor_zero, Nat.and_zero, Nat.or_zero, hold]
    rw [set_getElem_eq_self _ _ hin]

/-- Witness for C2 at a concrete memory, address, value and strobes. -/
theorem write_then_read_lanes_witness :
    (0 : Nat) / 4 < ([0x11223344, 0] : List Nat).length ∧
    byteLane 1 ((Memory.write ⟨[0x11223344, 0]⟩ 0 0xAABBCCDD true true false
        false).read 0) = byteLane 1 0xAABBCCDD := by
  refine ⟨by decide, ?_⟩
  have h := write_then_read_lanes ⟨[0x11223344, 0]⟩ 0 0xAABBCCDD true true
    false false (by decide) (by decide)
  have h1 := h.1 1 (by decide)
  simpa using h1

/-- C3: for an out-of-range word address, `readData` returns 0 (and, being
pure, touches no state), `readInst` returns 0 together with an emitted
diagnostic, and `write` is silently dropped, leaving all of memory
unchanged. -/
theorem out_of_range_access (m : Memory) (address : Nat)
    (hout : address / 4 ≥ m.mem.length) :
    m.read address = 0 ∧ m.readInst address = (0, true) ∧
    ∀ value s0 s1 s2 s3, m.write address value s0 s1 s2 s3 = m := by
  refine ⟨?_, ?_, ?_⟩
  · simp [Memory.read, hout]
  · simp [Memory.readInst, hout]
  · intro value s0 s1 s2 s3
    simp [Memory.write, hout]

/-- Witness for C3 at a concrete two-word memory and address 8. -/
theorem out_of_range_access_witness :
    (8 : Nat) / 4 ≥ ([1, 2] : List Nat).length ∧
    Memory.read ⟨[1, 2]⟩ 8 = 0 ∧ Memory.readInst ⟨[1, 2]⟩ 8 = (0, true) ∧
    Memory.write ⟨[1, 2]⟩ 8 7 true true true true = ⟨[1, 2]⟩ := by
  have h := out_of_range_access ⟨[1, 2]⟩ 8 (by decide)
  exact ⟨by decide, h.1, h.2.1, h.2.2 7 true true true true⟩

theorem effectiveAddress_eq (sel addr : Nat) (hsel : sel < 8) :
    effectiveAddress sel addr = sel * 2 ^ 29 + addr % 2 ^ 29 := by
  have hsh : DEVICE_SHIFT = 29 := by norm_num [DEVICE_SHIFT, DEVICE_SELECT_BITS]
  have hmask : DEVICE_MASK = 2 ^ 29 - 1 := by
    norm_num [DEVICE_MASK, DEVICE_SHIFT, DEVICE_SELECT_BITS, Nat.shiftLeft_eq]
  have hlt : sel * 2 ^ 29 < 2 ^ 32 := by
    calc sel * 2 ^ 29 ≤ 7 * 2 ^ 29 := Nat.mul_le_mul_right _ (by omega)
    _ < 2 ^ 32 := by norm_num
  unfold effectiveAddress
  rw [hsh, hmask, Nat.shiftLeft_eq, Nat.mod_eq_of_lt hlt,
    Nat.and_pow_two_sub_one_eq_mod, Nat.mul_comm sel]
  exact (Nat.mul_add_lt_is_or (Nat.mod_lt addr (by norm_num)) sel).symm

set_option linter.unnecessarySeqFocus false in
theorem regions_exclusive (ea : Nat) :
    (if isUart ea then (1 : Nat) else 0) + (if isTimer ea then 1 else 0) +
      (if isVga ea then 1 else 0) ≤ 1 := by
  by_cases h1 : ea &&& 0xF0000000 = UART_BASE <;>
    by_cases h2 : ea &&& 0xF0000000 = TIMER_BASE <;>
      simp_all [isUart, isTimer, isVga, UART_BASE, TIMER_BASE, VGA_BASE] <;>
        (split <;> omega)

/-- C1: the effective address is `(selector << 29) | (lowAddress mod 2^29)`,
i.e. arithmetically `selector * 2^29 + lowAddress mod 2^29`; the decoder is a
total function routing to exactly one target, with selector 0 always routed
to word memory; the UART, timer and video regions are pairwise disjoint
(at most one matches any effective address); and a transaction matching no
region reads 0 and has its writes discarded. -/
theorem decoder_routes_uniquely (sel addr : Nat) (hsel : sel < 8) :
    effectiveAddress sel addr = sel * 2 ^ 29 + addr % 2 ^ 29 ∧
    (sel = 0 → decode sel addr = BusTarget.wordMem) ∧
    (∀ ea : Nat, (if isUart ea then (1 : Nat) else 0) +
      (if isTimer ea then 1 else 0) + (if isVga ea then 1 else 0) ≤ 1) ∧
    (decode sel addr = BusTarget.noDevice →
      ∀ st value s0 s1 s2 s3, busRead st sel addr = 0 ∧
        busWrite st sel addr value s0 s1 s2 s3 = st) := by
  refine ⟨effectiveAddress_eq sel addr hsel, ?_, regions_exclusive, ?_⟩
  · intro h0
    simp [decode, h0]
  · intro hdec st value s0 s1 s2 s3
    by_cases h0 : sel = 0
    · simp [decode, h0] at hdec
    · by_cases h1 : isUart (effectiveAddress sel addr) = true
      · simp [decode, h0, h1] at hdec
      · by_cases h2 : isTimer (effectiveAddress sel addr) = true
        · simp [decode, h0, h1, h2] at hdec
        · by_cases h3 : isVga (effectiveAddress sel addr) = true
          · simp [decode, h0, h1, h2, h3] at hdec
          · constructor
            · simp [busRead, h0, h1, h2, h3]
            · simp [busWrite, h0, h1, h2, h3]

/-- Witness for C1 at selector 5 (an unmapped region) and address 12. -/
theorem decoder_routes_uniquely_witness :
    (5 : Nat) < 8 ∧ effectiveAddress 5 12 = 5 * 2 ^ 29 + 12 % 2 ^ 29 ∧
      decode 5 12 = BusTarget.noDevice ∧
      busRead ⟨⟨[3]⟩, {}, {}⟩ 5 12 = 0 := by
  have h := decoder_routes_uniquely 5 12 (by decide)
  exact ⟨by decide, h.1, by decide,
    (h.2.2.2 (by decide) ⟨⟨[3]⟩, {}, {}⟩ 0 true true true true).1⟩

/-- C4 counterexample: reading the baud-rate offset 0x4 of a freshly
constructed UART returns the stored default 115200, not 0, although 0x4 is
not the receive-byte offset 0xC. -/
theorem uart_baud_read_cex :
    (0x4 : Nat) ≠ 0xC ∧ UartMMIO.read {} 0x4 = 115200 ∧
      UartMMIO.read {} 0x4 ≠ 0 := by decide

/-- C4 (amended): in the UART register file the enable register is
write-only (reading its offset returns 0), and a read at any offset other
than the baud-rate and receive-byte offsets returns 0; the baud-rate offset
reads back the stored baud rate and the receive offset the stored receive
byte. -/
theorem uart_read_offsets (u : UartMMIO) (offset : Nat) :
    (offset ≠ 0x4 → offset ≠ 0xC → u.read offset = 0) ∧
    u.read 0x4 = u.baudrate ∧ u.read 0x8 = 0 ∧ u.read 0xC = u.last_rx := by
  refine ⟨?_, ?_, ?_, ?_⟩ <;> intros <;> simp [ UartMMIO.read, *]

/-- Witness for C4 (amended) at the enable offset 0x8. -/
theorem uart_read_offsets_witness :
    (0x8 : Nat) ≠ 0x4 ∧ (0x8 : Nat) ≠ 0xC ∧ UartMMIO.read {} 0x8 = 0 :=
  ⟨by decide, by decide, (uart_read_offsets {} 0x8).1 (by decide) (by decide)⟩

theorem uart_write_last_rx (u : UartMMIO) (o v : Nat) :
    (u.write o v).last_rx = u.last_rx := by
  unfold UartMMIO.write
  split_ifs <;> rfl

theorem applyWrites_last_rx (ws : List (Nat × Nat)) :
    ∀ u : UartMMIO, (applyWrites u ws).last_rx = u.last_rx := by
  induction ws with
  | nil => intro u; rfl
  | cons p rest ih =>
    intro u
    rw [applyWrites, ih, uart_write_last_rx]

/-- C5: writing the transmit offset while enabled appends the low 8 bits of
the value to the transmit log; while disabled the write is accepted but
leaves the whole UART state (including the log) unchanged; and the receive
offset reads the fixed placeholder 0 after any sequence of register writes
from the initial state. -/
theorem uart_transmit_and_receive (u : UartMMIO) (v : Nat)
    (ws : List (Nat × Nat)) :
    (u.enabled = true → (u.write 0x10 v).tx_log = u.tx_log ++ [v &&& 0xFF]) ∧
    (u.enabled = false → u.write 0x10 v = u) ∧
    (applyWrites {} ws).read 0xC = 0 := by
  refine ⟨?_, ?_, ?_⟩
  · intro h
    simp [ UartMMIO.write, h]
  · intro h
    simp [ UartMMIO.write, h]
  · simp [ UartMMIO.read, applyWrites_last_rx]

/-- Witness for C5: an enabled UART transmits the low byte 0xAB of 0x1AB. -/
theorem uart_transmit_and_receive_witness :
    ( UartMMIO.write ⟨115200, true, 0, []⟩ 0x10 0x1AB).tx_log =
      [] ++ [0x1AB &&& 0xFF] :=
  (uart_transmit_and_receive ⟨115200, true, 0, []⟩ 0x1AB []).1 rfl

theorem vga_eq_colorMap (c : Nat) (h : c < 4) :
    vga2bit_to_8bit c = colorMap c := by
  interval_cases c <;> rfl

theorem and_three_lt (x : Nat) : x &&& 3 < 4 := by
  have h : x &&& 3 = x % 4 := by
    have h2 := Nat.and_pow_two_sub_one_eq_mod x 2
    norm_num at h2
    exact h2
  rw [h]
  exact Nat.mod_lt _ (by norm_num)

theorem update_pixel_active (d : VGADisplay) (rrggbb av x y : Nat)
    (hav : av ≠ 0) (hx : x < H_RES) (hy : y < V_RES) (i : Nat) :
    (d.update_pixel rrggbb av x y).framebuffer i =
      (if i = (y * H_RES + x) * 4 then vga2bit_to_8bit (rrggbb &&& 0b11)
      else if i = (y * H_RES + x) * 4 + 1 then
        vga2bit_to_8bit ((rrggbb >>> 2) &&& 0b11)
      else if i = (y * H_RES + x) * 4 + 2 then
        vga2bit_to_8bit ((rrggbb >>> 4) &&& 0b11)
      else if i = (y * H_RES + x) * 4 + 3 then 255
      else d.framebuffer i) := by
  rw [VGADisplay.update_pixel, if_pos ⟨hav, hx, hy⟩]

/-- C6: `vga2bit_to_8bit` realises exactly the evenly-spaced map
0 → 0, 1 → 85, 2 → 170, 3 → 255 on 2-bit inputs; with active video and
in-range coordinates the pixel's four bytes receive the three expanded
channels and full (255) opacity while every other byte is untouched; with
active video deasserted or coordinates out of resolution the display state
is unchanged. -/
theorem update_pixel_spec (d : VGADisplay) (rrggbb activevideo x y : Nat) :
    (∀ c, c < 4 → vga2bit_to_8bit c = colorMap c) ∧
    (activevideo ≠ 0 → x < H_RES → y < V_RES →
      ((d.update_pixel rrggbb activevideo x y).framebuffer
          ((y * H_RES + x) * 4) = colorMap (rrggbb &&& 0b11) ∧
        (d.update_pixel rrggbb activevideo x y).framebuffer
          ((y * H_RES + x) * 4 + 1) = colorMap ((rrggbb >>> 2) &&& 0b11) ∧
        (d.update_pixel rrggbb activevideo x y).framebuffer
          ((y * H_RES + x) * 4 + 2) = colorMap ((rrggbb >>> 4) &&& 0b11) ∧
        (d.update_pixel rrggbb activevideo x y).framebuffer
          ((y * H_RES + x) * 4 + 3) = 255 ∧
        ∀ i, i < (y * H_RES + x) * 4 ∨ (y * H_RES + x) * 4 + 3 < i →
          (d.update_pixel rrggbb activevideo x y).framebuffer i =
            d.framebuffer i)) ∧
    (activevideo = 0 → d.update_pixel rrggbb activevideo x y = d) ∧
    (¬(x < H_RES ∧ y < V_RES) →
      d.update_pixel rrggbb activevideo x y = d) := by
  refine ⟨fun c hc => vga_eq_colorMap c hc, ?_, ?_, ?_⟩
  · intro hav hx hy
    refine ⟨?_, ?_, ?_, ?_, ?_⟩ <;>
      try (rw [update_pixel_active d rrggbb activevideo x y hav hx hy]
           split_ifs <;> first
             | (exact vga_eq_colorMap _ (and_three_lt _))
             | rfl
             | omega)
    intro i hi
    rw [update_pixel_active d rrggbb activevideo x y hav hx hy]
    split_ifs <;> omega
  · intro hav
    rw [VGADisplay.update_pixel, if_neg]
    simp [hav]
  · intro hxy
    rw [VGADisplay.update_pixel, if_neg]
    intro hcon
    exact hxy ⟨hcon.2.1, hcon.2.2⟩

/-- Witness for C6 at a concrete pixel write. -/
theorem update_pixel_spec_witness :
    (1 : Nat) ≠ 0 ∧ (2 : Nat) < H_RES ∧ (1 : Nat) < V_RES ∧
    (VGADisplay.update_pixel ⟨fun _ => 0, true, 0⟩ 0b110110 1 2 1).framebuffer
        ((1 * H_RES + 2) * 4 + 3) = 255 := by
  refine ⟨by decide, by decide, by decide, ?_⟩
  exact ((update_pixel_spec ⟨fun _ => 0, true, 0⟩ 0b110110 1 2 1).2.1
    (by decide) (by decide) (by decide)).2.2.2.1

theorem foldl_check_vsync (vs : List Bool) :
    ∀ d : VGADisplay, (List.foldl VGADisplay.check_vsync d vs).presented =
      d.presented + fallingEdges d.prev_vsync vs := by
  induction vs with
  | nil => intro d; simp [fallingEdges]
  | cons v rest ih =>
    intro d
    rw [List.foldl_cons, ih, fallingEdges]
    simp only [VGADisplay.check_vsync]
    split <;> omega

/-- C7: over any vsync sample sequence the number of frame hand-offs grows
by exactly the number of falling edges (previous sample high, current low);
a single step increments the hand-off count precisely on a falling edge and
never on a rising edge or steady level; and the edge detector carries
exactly the one previous-vsync bit across cycles, which after a step equals
the current sample. -/
theorem vsync_falling_edges (d : VGADisplay) (vs : List Bool) (v : Bool) :
    (List.foldl VGADisplay.check_vsync d vs).presented =
      d.presented + fallingEdges d.prev_vsync vs ∧
    ((d.check_vsync v).presented =
      if !v && d.prev_vsync then d.presented + 1 else d.presented) ∧
    (d.prev_vsync = false ∨ v = true →
      (d.check_vsync v).presented = d.presented) ∧
    (d.check_vsync v).prev_vsync = v ∧
    (d.check_vsync v).framebuffer = d.framebuffer := by
  refine ⟨foldl_check_vsync vs d, rfl, ?_, rfl, rfl⟩
  intro h
  simp only [VGADisplay.check_vsync]
  rcases h with h | h <;> simp [h]

/-- Witness for C7: two falling edges over a concrete sample sequence, and a
steady-low step that does not hand off a frame. -/
theorem vsync_falling_edges_witness :
    (List.foldl VGADisplay.check_vsync ⟨fun _ => 0, true, 0⟩
        [true, false, false, true, false]).presented =
      (0 : Nat) + fallingEdges true [true, false, false, true, false] ∧
    (VGADisplay.check_vsync ⟨fun _ => 0, false, 0⟩ false).presented = 0 :=
  ⟨(vsync_falling_edges ⟨fun _ => 0, true, 0⟩
      [true, false, false, true, false] false).1,
    (vsync_falling_edges ⟨fun _ => 0, false, 0⟩ [] false).2.2.1
      (Or.inl rfl)⟩

theorem simRunAux_halts (haltAddr : Nat) (trace : Nat → Option BusOp)
    (st0 : BusState) (tw : Nat) (hA : haltAddr ≠ 0)
    (hs : (stateAfter trace st0 tw).mem.read haltAddr = HALT_SENTINEL) :
    ∀ fuel t, t < tw → tw ≤ t + fuel →
      (simRunAux haltAddr trace fuel t (stateAfter trace st0 t)).1 ≤ tw := by
  intro fuel
  induction fuel with
  | zero =>
    intro t h1 h2
    exact absurd h2 (by omega)
  | succ fuel ih =>
    intro t h1 h2
    rw [simRunAux]
    have hst : tickDispatch (stateAfter trace st0 t) (trace (t + 1)) =
        stateAfter trace st0 (t + 1) := rfl
    by_cases hc : haltAddr ≠ 0 ∧
        (tickDispatch (stateAfter trace st0 t) (trace (t + 1))).mem.read
          haltAddr = HALT_SENTINEL
    · rw [if_pos hc]
      show t + 1 ≤ tw
      omega
    · rw [if_neg hc]
      have hlt : t + 1 < tw := by
        rcases Nat.lt_or_ge (t + 1) tw with h | h
        · exact h
        · have he : t + 1 = tw := by omega
          rw [hst, he] at hc
          exact absurd ⟨hA, hs⟩ hc
      have := ih (t + 1) hlt (by omega)
      rw [hst]
      exact this

/-- C8 (amended): with a nonzero halt address configured, if the dispatch
of tick `tw` (with `1 ≤ tw ≤ budget`) leaves the sentinel word readable at
the halt address, the loop terminates at that very tick — the final
`main_time` is at most `tw` (so no core evaluation happens after the halt
is observed) — and whenever the write occurs strictly before the final
budgeted tick the final counter is strictly below the budget. -/
theorem halt_terminates (haltAddr budget tw : Nat)
    (trace : Nat → Option BusOp) (st0 : BusState) (hA : haltAddr ≠ 0)
    (h1 : 1 ≤ tw) (h2 : tw ≤ budget)
    (hs : (stateAfter trace st0 tw).mem.read haltAddr = HALT_SENTINEL) :
    (simRun haltAddr budget trace st0).1 ≤ tw ∧
    (tw < budget → (simRun haltAddr budget trace st0).1 < budget) := by
  have h := simRunAux_halts haltAddr trace st0 tw hA hs budget 0 (by omega)
    (by omega)
  exact ⟨h, fun hlt => lt_of_le_of_lt h hlt⟩

/-- C8 counterexample: with budget 3 and halt address 4, the dispatch of
the final RUNNING tick 3 writes the sentinel; the loop stops at that tick,
but the final tick counter equals the budget instead of being strictly
below it. -/
theorem halt_at_budget_cex :
    (stateAfter haltCexTrace ⟨⟨[0, 0]⟩, {}, {}⟩ 3).mem.read 4 =
      HALT_SENTINEL ∧
    (simRun 4 3 haltCexTrace ⟨⟨[0, 0]⟩, {}, {}⟩).1 = 3 ∧
    ¬(simRun 4 3 haltCexTrace ⟨⟨[0, 0]⟩, {}, {}⟩).1 < 3 := by
  refine ⟨?_, ?_, ?_⟩ <;> decide

/-- Witness for C8 (amended): the same sentinel write placed at tick 2 of a
budget-4 run makes the loop stop at tick 2, strictly below the budget. -/
theorem halt_terminates_witness :
    (stateAfter (fun t => if t = 2 then
        some ⟨0, 4, 0xBABECAFE, true, true, true, true⟩ else none)
      ⟨⟨[0, 0]⟩, {}, {}⟩ 2).mem.read 4 = HALT_SENTINEL ∧
    (simRun 4 4 (fun t => if t = 2 then
        some ⟨0, 4, 0xBABECAFE, true, true, true, true⟩ else none)
      ⟨⟨[0, 0]⟩, {}, {}⟩).1 ≤ 2 ∧
    (simRun 4 4 (fun t => if t = 2 then
        some ⟨0, 4, 0xBABECAFE, true, true, true, true⟩ else none)
      ⟨⟨[0, 0]⟩, {}, {}⟩).1 < 4 := by
  have h := halt_terminates 4 4 2
    (fun t => if t = 2 then
      some ⟨0, 4, 0xBABECAFE, true, true, true, true⟩ else none)
    ⟨⟨[0, 0]⟩, {}, {}⟩ (by decide) (by decide) (by decide) (by decide)
  exact ⟨by decide, h.1, h.2 (by decide)⟩

theorem sigAddrs_eq (b e : Nat) :
    sigAddrs b e = (List.range ((e - b + 3) / 4)).map (fun i => b + 4 * i) := by
  rw [sigAddrs]
  by_cases h : b < e
  · rw [if_pos h, sigAddrs_eq (b + 4) e]
    have hn : (e - b + 3) / 4 = (e - (b + 4) + 3) / 4 + 1 := by omega
    rw [hn, List.range_succ_eq_map, List.map_cons, List.map_map]
    congr 1
    apply List.map_congr_left
    intro i _
    show b + 4 + 4 * i = b + 4 * (i + 1)
    omega
  · rw [if_neg h]
    have hz : (e - b + 3) / 4 = 0 := by omega
    simp [hz]
termination_by e - b
decreasing_by omega

theorem hexDigit_mem (d : Nat) (h : d < 16) : hexDigit d ∈ lowerHexChars := by
  interval_cases d <;> decide

theorem and_fifteen_lt (x : Nat) : x &&& 15 < 16 := by
  have h : x &&& 15 = x % 16 := by
    have h2 := Nat.and_pow_two_sub_one_eq_mod x 4
    norm_num at h2
    exact h2
  rw [h]
  exact Nat.mod_lt _ (by norm_num)

theorem toHex8_length (w : Nat) : (toHex8 w).length = 8 := by
  simp [toHex8]

theorem toHex8_chars (w : Nat) :
    ∀ c ∈ (toHex8 w).data, c ∈ lowerHexChars := by
  intro c hc
  simp only [toHex8, List.mem_map] at hc
  obtain ⟨k, -, hk⟩ := hc
  rw [← hk]
  exact hexDigit_mem _ (and_fifteen_lt _)

theorem join_length (ss : List String) :
    (String.join ss).length = (ss.map String.length).sum := by
  rw [String.join_eq, String.length_mk, List.length_flatten, List.map_map]
  rfl

theorem sum_map_nine (ls : List String) (h : ∀ l ∈ ls, l.length = 8) :
    ((ls.map (fun l => l ++ "\n")).map String.length).sum = 9 * ls.length := by
  induction ls with
  | nil => rfl
  | cons a rest ih =>
    simp only [List.map_cons, List.sum_cons, String.length_append,
      List.length_cons]
    rw [h a (by simp), ih (fun l hl => h l (by simp [hl]))]
    have hnl : ("\n" : String).length = 1 := rfl
    rw [hnl]
    ring

/-- C9: for a 4-byte-aligned window `begin ≤ end`, the signature artifact
has exactly `(end - begin) / 4` lines, visited in ascending address order
(line `i` is the formatted word at `begin + 4 * i`), each line consisting
of exactly 8 lowercase hexadecimal digits with no prefix, and the artifact
text is the lines each followed by one newline, hence 9 characters per
word. -/
theorem signature_format (mem : Memory) (b e : Nat) (_hbe : b ≤ e)
    (hal : 4 ∣ (e - b)) :
    (signatureLines mem b e).length = (e - b) / 4 ∧
    (∀ i, i < (e - b) / 4 →
      (signatureLines mem b e).getD i "" = toHex8 (mem.read (b + 4 * i))) ∧
    (∀ l ∈ signatureLines mem b e,
      l.length = 8 ∧ ∀ c ∈ l.data, c ∈ lowerHexChars) ∧
    (signatureOutput mem b e).length = 9 * ((e - b) / 4) := by
  have hn : (e - b + 3) / 4 = (e - b) / 4 := by omega
  have hlines : signatureLines mem b e =
      (List.range ((e - b) / 4)).map (fun i => toHex8 (mem.read (b + 4 * i))) := by
    rw [signatureLines, sigAddrs_eq, hn, List.map_map]
    rfl
  refine ⟨?_, ?_, ?_, ?_⟩
  · rw [hlines]
    simp
  · intro i hi
    rw [hlines]
    simp [List.getD_eq_getElem?_getD, List.getElem?_map, List.getElem?_range hi]
  · intro l hl
    rw [hlines] at hl
    simp only [List.mem_map] at hl
    obtain ⟨i, -, hi⟩ := hl
    rw [← hi]
    exact ⟨toHex8_length _, toHex8_chars _⟩
  · have hlen8 : ∀ l ∈ signatureLines mem b e, l.length = 8 := by
      intro l hl
      rw [hlines] at hl
      simp only [List.mem_map] at hl
      obtain ⟨i, -, hi⟩ := hl
      rw [← hi]
      exact toHex8_length _
    have hcount : (signatureLines mem b e).length = (e - b) / 4 := by
      rw [hlines]
      simp
    rw [signatureOutput, join_length, ← hcount]
    exact sum_map_nine _ hlen8

/-- Witness for C9 on a concrete two-word memory and the window [0, 8). -/
theorem signature_format_witness :
    (0 : Nat) ≤ 8 ∧ (4 : Nat) ∣ (8 - 0) ∧
    (signatureLines ⟨[0xDEADBEEF, 0x1]⟩ 0 8).length = (8 - 0) / 4 ∧
    (signatureLines ⟨[0xDEADBEEF, 0x1]⟩ 0 8).getD 0 "" =
      toHex8 (Memory.read ⟨[0xDEADBEEF, 0x1]⟩ (0 + 4 * 0)) ∧
    (signatureOutput ⟨[0xDEADBEEF, 0x1]⟩ 0 8).length = 9 * ((8 - 0) / 4) := by
  have h := signature_format ⟨[0xDEADBEEF, 0x1]⟩ 0 8 (by decide) (by decide)
  exact ⟨by decide, by decide, h.1, h.2.1 0 (by decide), h.2.2.2⟩

/-- C10: the progress divisor `budget / 100` is zero — making the C++
modulo of the per-tick progress check a division by zero — exactly when
the configured tick budget is below 100; for every budget of at least 100
it is nonzero, so the check is well defined on every tick. -/
theorem progressDivisor_zero_iff (budget : Nat) :
    progressDivisor budget = 0 ↔ budget < 100 := by
  unfold progressDivisor
  omega

end MyCpu


